import Mathlib

/-!
# Profile-metadata store: key layout, record codec, scan, sequence lease, trace viewer

A shallow embedding of `pkg/storage/store_test.go` (`insert`, `itob`, `read`,
`decodeGob`, `decodeMsgPack`) and of `pkg/go/v1175/traceweb/web.go`
(`parseTrace`, `parseEvents`, `main`, `templMain`).

Go values are represented as follows.
* `[]byte` and `string` are lists of bytes, a byte being a `Fin 256`.
* `uint64` is a `Nat` read modulo `2 ^ 64`; `int` and `int64` are an `Int` in
  the two's complement range of 64 bits (`int` is 64 bits wide on the targets
  the store runs on).
* A `time.Time` handed to `BuildKey` is the number of clock ticks since the
  epoch, a `Nat`.
* Code that can fail returns the error next to the state it leaves behind.
-/

namespace Profiler

/-! ## Bytes and big-endian integers -/

/-- One byte. -/
abbrev Byte := Fin 256

/-- A Go byte slice (or string). -/
abbrev Bytes := List Byte

/-- The low eight bits of a number, Go's `byte(v)`. -/
def byteOf (v : Nat) : Byte := ⟨v % 256, Nat.mod_lt v (by decide)⟩

/-- The `w` low-order base-256 digits of `v`, most significant first. -/
def beBytes : Nat → Nat → Bytes
  | 0, _ => []
  | w + 1, v => byteOf (v / 256 ^ w) :: beBytes w v

/-- The number a byte string denotes when read most significant byte first. -/
def beNat (b : Bytes) : Nat := b.foldl (fun acc x => acc * 256 + x.val) 0

/-- Go's `binary.BigEndian.PutUint64` on a fresh eight-byte slice:
`b[0] = byte(v >> 56)`, ..., `b[7] = byte(v)`. -/
def putUint64 (v : Nat) : Bytes :=
  [byteOf (v / 2 ^ 56), byteOf (v / 2 ^ 48), byteOf (v / 2 ^ 40), byteOf (v / 2 ^ 32),
   byteOf (v / 2 ^ 24), byteOf (v / 2 ^ 16), byteOf (v / 2 ^ 8), byteOf v]

/-- Go's `binary.BigEndian.Uint64` on the first eight bytes of a slice; `none`
stands for the bounds-check failure on a shorter slice. -/
def getUint64 (b : Bytes) : Option Nat :=
  if 8 ≤ b.length then some (beNat (b.take 8)) else none

/-- Go's `bytes.Compare`: lexicographic comparison of byte strings, a proper
leading part being smaller. -/
def bytesCompare : Bytes → Bytes → Ordering
  | [], [] => .eq
  | [], _ :: _ => .lt
  | _ :: _, [] => .gt
  | a :: as, b :: bs =>
    if a < b then .lt else if b < a then .gt else bytesCompare as bs

/-! ## Machine integers -/

/-- Width of Go's `int` in bits. -/
def intSize : Nat := 64

/-- Go's conversion `int(num)` of a `uint64`: the same 64 bits read as two's
complement. -/
def intOfUint64 (num : Nat) : Int :=
  if num % 2 ^ intSize < 2 ^ (intSize - 1) then ((num % 2 ^ intSize : Nat) : Int)
  else ((num % 2 ^ intSize : Nat) : Int) - 2 ^ intSize

/-- Go's conversion `uint64(v)` of an `int` or `int64`. -/
def uint64OfInt (v : Int) : Nat := (v % 2 ^ 64).toNat

/-- Go's conversion `int64(u)` of a `uint64`. -/
def int64OfUint64 (u : Nat) : Int :=
  if u % 2 ^ 64 < 2 ^ 63 then ((u % 2 ^ 64 : Nat) : Int) else ((u % 2 ^ 64 : Nat) : Int) - 2 ^ 64

/-! ## Keys -/

/-- Source `itob`: eight bytes, `binary.BigEndian.PutUint64(b, uint64(v))`. -/
def itob (v : Int) : Bytes := putUint64 (uint64OfInt v)

/-- Modelled from the spec: `BuildKey` is called by `init` and `insert` but its
body is not among the sources. Section 6 fixes the time component of a key as
`time(8 bytes, big-endian)` and section 3 as a fixed-width big-endian encoding
of the insertion timestamp; `t` is the timestamp as a tick count since the
epoch, the store's epoch policy admitting no earlier time. -/
def BuildKey (t : Nat) : Bytes := putUint64 t

/-- The key `insert` hands to `txn.Set`:
`append(append([]byte(prefix), BuildKey(time.Now())...), itob(int(num))...)`. -/
def insertKey (pfx : Bytes) (now : Nat) (num : Nat) : Bytes :=
  (pfx ++ BuildKey now) ++ itob (intOfUint64 num)

/-! ## Records and their codec -/

/-- Errors of the store and of the engine it drives. -/
inductive Error where
  | MalformedRecord
  | EngineError
  | ErrEmptyKey
  | ErrZeroBandwidth
  | DecodeError
  deriving DecidableEq, Repr

/-- The record `ProfileMeta`, with the five fields `TestEncode` sets and
compares; strings are byte strings. `ProfileID` is an unsigned 64-bit
identifier, `Timestamp` and `Duration` are `int64`. -/
structure ProfileMeta where
  ProfileID : Nat
  Timestamp : Int
  Duration : Int
  SampleTypeUnit : Bytes
  SampleType : Bytes
  deriving DecidableEq, Repr

/-- The zero value of `ProfileMeta`, what `var sample ProfileMeta` declares. -/
def zeroMeta : ProfileMeta := ⟨0, 0, 0, [], []⟩

/-- A string field on the wire: a length prefix followed by the raw bytes. -/
def putString (s : Bytes) : Bytes := putUint64 s.length ++ s

/-- Modelled from the spec: `ProfileMeta.Encode` is called by `TestEncode` but
its body is not among the sources. Section 4.3: integer fields as fixed-width
binary integers in a single consistent byte order, string fields as a length
prefix followed by raw bytes. Every integer, a length prefix included, takes
eight bytes big-endian, the width and byte order section 6 fixes for keys. -/
def ProfileMeta.Encode (r : ProfileMeta) : Except Error Bytes :=
  .ok (putUint64 r.ProfileID ++ putUint64 (uint64OfInt r.Timestamp)
        ++ putUint64 (uint64OfInt r.Duration)
        ++ putString r.SampleTypeUnit ++ putString r.SampleType)

/-- Reads one fixed-width integer off the front of a buffer. -/
def readUint64 (b : Bytes) : Except Error (Nat × Bytes) :=
  match getUint64 b with
  | some v => .ok (v, b.drop 8)
  | none => .error .MalformedRecord

/-- Reads one length-prefixed string off the front of a buffer; a length
prefix that exceeds the remaining buffer is a malformed record. -/
def readString (b : Bytes) : Except Error (Bytes × Bytes) :=
  match readUint64 b with
  | .error e => .error e
  | .ok (n, rest) =>
    if n ≤ rest.length then .ok (rest.take n, rest.drop n) else .error .MalformedRecord

/-- Modelled from the spec: `ProfileMeta.Decode` is called by `TestEncode` but
its body is not among the sources. Section 4.3: the inverse of `Encode`; fails
with `MalformedRecord` if the byte length is inconsistent with the declared
field lengths, or a length prefix exceeds the remaining buffer. The result is
the record the receiver holds after a successful call. -/
def ProfileMeta.Decode (b : Bytes) : Except Error ProfileMeta :=
  match readUint64 b with
  | .error e => .error e
  | .ok (id, b1) =>
  match readUint64 b1 with
  | .error e => .error e
  | .ok (ts, b2) =>
  match readUint64 b2 with
  | .error e => .error e
  | .ok (du, b3) =>
  match readString b3 with
  | .error e => .error e
  | .ok (unit, b4) =>
  match readString b4 with
  | .error e => .error e
  | .ok (ty, b5) =>
    if b5 = [] then
      .ok { ProfileID := id, Timestamp := int64OfUint64 ts, Duration := int64OfUint64 du,
            SampleTypeUnit := unit, SampleType := ty }
    else .error .MalformedRecord

/-- The range of Go's `int64`. -/
def isInt64 (v : Int) : Prop := -2 ^ 63 ≤ v ∧ v < 2 ^ 63

instance (v : Int) : Decidable (isInt64 v) := by unfold isInt64; infer_instance

/-- A record whose fields have values of their Go types: a `uint64`, two
`int64` and two strings (whose lengths are an `int`). -/
def ProfileMeta.wellTyped (r : ProfileMeta) : Prop :=
  r.ProfileID < 2 ^ 64 ∧ isInt64 r.Timestamp ∧ isInt64 r.Duration
    ∧ r.SampleTypeUnit.length < 2 ^ 63 ∧ r.SampleType.length < 2 ^ 63

instance (r : ProfileMeta) : Decidable r.wellTyped := by
  unfold ProfileMeta.wellTyped; infer_instance

/-! ## The engine: key-value content and sequence lease -/

/-- Writes `key -> val` into key-ordered content, replacing an equal key. -/
def kvSet (key val : Bytes) : List (Bytes × Bytes) → List (Bytes × Bytes)
  | [] => [(key, val)]
  | (k, v) :: rest =>
    match bytesCompare key k with
    | .lt => (key, val) :: (k, v) :: rest
    | .eq => (key, val) :: rest
    | .gt => (k, v) :: kvSet key val rest

/-- The durable state of the engine: the key-value content in key order, and
the durable high-water-mark of each sequence key (absent means zero). -/
structure DB where
  kv : List (Bytes × Bytes)
  marks : List (Bytes × Nat)
  deriving DecidableEq, Repr

/-- The durable high-water-mark of a sequence key. -/
def DB.mark (db : DB) (key : Bytes) : Nat := (db.marks.lookup key).getD 0

/-- Stores a new durable high-water-mark for a sequence key. -/
def DB.setMark (db : DB) (key : Bytes) (v : Nat) : DB :=
  { db with marks := (key, v) :: db.marks.filter (fun m => m.1 ≠ key) }

/-- The effect of a committed `txn.Set(key, val)`. -/
def DB.set (db : DB) (key val : Bytes) : DB := { db with kv := kvSet key val db.kv }

/-- The in-memory lease of a sequence: `[next, leased)` is still to hand out. -/
structure Sequence where
  key : Bytes
  next : Nat
  leased : Nat
  bandwidth : Nat
  deriving DecidableEq, Repr

/-- Modelled from the spec: the engine's sequence primitive is not among the
sources. Section 4.2 and the lease of section 3: a refill atomically reads the
durable high-water-mark, advances it by the batch size in a single transaction
and sets the lease to `[oldMark, oldMark + batchSize)`; if that transaction
fails (`fault`), the call fails and nothing changes. Marks and numbers are
`uint64`, so the advance is taken modulo `2 ^ 64`. -/
def updateLease (fault : Option Error) (db : DB) (seq : Sequence) :
    Except Error (DB × Sequence) :=
  match fault with
  | some e => .error e
  | none =>
    let old := db.mark seq.key % 2 ^ 64
    let lease := (old + seq.bandwidth) % 2 ^ 64
    .ok (db.setMark seq.key lease, { seq with next := old, leased := lease })

/-- Modelled from the spec: `seq.Next()`, section 4.2, not among the sources.
If the lease has remaining capacity the next value is returned with no I/O;
otherwise the lease is refilled first, and a failed refill fails the call. -/
def Sequence.Next (fault : Option Error) (db : DB) (seq : Sequence) :
    Except Error (DB × Sequence × Nat) :=
  if seq.next < seq.leased then
    .ok (db, { seq with next := (seq.next + 1) % 2 ^ 64 }, seq.next)
  else
    match updateLease fault db seq with
    | .error e => .error e
    | .ok (db1, seq1) => .ok (db1, { seq1 with next := (seq1.next + 1) % 2 ^ 64 }, seq1.next)

/-! ## insert -/

/-- The engine failures one call of `insert` may meet: in the lease
transaction of `GetSequence`, in a lease transaction `seq.Next` runs, in
`txn.Set`, and in the commit of the update transaction. -/
structure Faults where
  getSequence : Option Error
  next : Option Error
  set : Option Error
  commit : Option Error
  deriving DecidableEq, Repr

/-- No engine failure. -/
def Faults.none : Faults := ⟨Option.none, Option.none, Option.none, Option.none⟩

/-- An item of the engine iterator: its key, and what `item.Value` yields, the
value bytes or an error. -/
structure Item where
  key : Bytes
  value : Except Error Bytes

/-- How a call of `read` ends: it returns, it reports the error of the view
transaction through `log.Fatal`, or the decoder panics. -/
inductive Exit where
  | done
  | fatal (e : Error)
  | panicked (e : Error)
  deriving DecidableEq, Repr

/-- The records `read` has collected in `target.ProfileMetas`, and how it ended. -/
structure ReadResult where
  metas : List ProfileMeta
  exit : Exit
  deriving DecidableEq, Repr

/-- The loop of source `read`, `for it.Rewind(); it.Valid(); it.Next()`, over
the items still ahead of the iterator; `acc` is `target.ProfileMetas`. The
comparison `CompareKey` and the bound `max` are not among the sources and are
parameters; a decoder `fn` that panics yields `.error`. -/
def readLoop (CompareKey : Bytes → Bytes → Bool) (max : Bytes)
    (fn : Bytes → Except Error ProfileMeta) : List Item → List ProfileMeta → ReadResult
  | [], acc => ⟨acc, .done⟩
  | it :: rest, acc =>
    if !CompareKey it.key max then ⟨acc, .done⟩
    else
      match it.value with
      | .error e => ⟨acc, .fatal e⟩
      | .ok v =>
        match fn v with
        | .error e => ⟨acc, .panicked e⟩
        | .ok m => readLoop CompareKey max fn rest (acc ++ [m])

/-- Source `read(fn)`: `items` is what the iterator yields from `Rewind` on, in
key order; the result starts from an empty `target.ProfileMetas`. -/
def read (CompareKey : Bytes → Bytes → Bool) (max : Bytes)
    (fn : Bytes → Except Error ProfileMeta) (items : List Item) : ReadResult :=
  readLoop CompareKey max fn items []

/-- The items an iterator yields over key-value content when every value read
succeeds. -/
def itemsOf (kvs : List (Bytes × Bytes)) : List Item :=
  kvs.map (fun kv => ⟨kv.1, .ok kv.2⟩)

/-- A decoder that never panics. -/
def totalDecoder (g : Bytes → ProfileMeta) : Bytes → Except Error ProfileMeta :=
  fun v => .ok (g v)

/-- A library decoder (`gob` `Decode`, `msgpack.Unmarshal`): given the bytes and
the record to fill, the record as left behind and the error returned. -/
abbrev LibDecoder := Bytes → ProfileMeta → ProfileMeta × Option Error

/-- Source `decodeGob`: the error of the decoder is tested by an `if` with an
empty body, and `&sample` is returned whatever it was. -/
def decodeGob (gobDecode : LibDecoder) (v : Bytes) : Except Error ProfileMeta :=
  match gobDecode v zeroMeta with
  | (sample, _) => .ok sample

/-- Source `decodeMsgPack`: panics with the error of `msgpack.Unmarshal`. -/
def decodeMsgPack (unmarshal : LibDecoder) (v : Bytes) : Except Error ProfileMeta :=
  match unmarshal v zeroMeta with
  | (_, some e) => .error e
  | (sample, Option.none) => .ok sample

/-! ## Store content under one prefix, and the scenario of section 8 -/

/-- A record `insert` stored: the clock reading and the sequence number its
key was built from, and the payload. -/
structure Stored where
  time : Nat
  num : Nat
  value : Bytes
  deriving DecidableEq, Repr

/-- The key of a stored record under a prefix. -/
def Stored.key (pfx : Bytes) (s : Stored) : Bytes := insertKey pfx s.time s.num

/-- The comparison `bytes.Compare(k, bound) <= 0`. -/
def lexLe (k bound : Bytes) : Bool := bytesCompare k bound != .gt

/-- A stand-in for a library decoder: it fails on the empty input and leaves
the record untouched, and otherwise fills in the length as `ProfileID`. -/
def toyDecoder : LibDecoder := fun v sample =>
  if v = [] then (sample, some Error.DecodeError)
  else ({ sample with ProfileID := v.length }, none)

/-! ## The trace viewer -/

/-- The result of `trace.Parse`: the events and the stacks, an event or a frame
being named by a number. -/
structure ParseResult where
  Events : List Nat
  Stacks : List (Nat × List Nat)
  deriving DecidableEq, Repr

/-- What a call finds outside the program: what `os.Open(traceFile)` gives (the
content of the file, or an error), and what `trace.Parse` makes of a content. -/
structure World where
  openFile : Except String Bytes
  parse : Bytes → Except String ParseResult

/-- The package variable `loader`: whether `once` has run, `res` and `err`
(`none` is the nil error). -/
structure Loader where
  once : Bool
  res : ParseResult
  err : Option String
  deriving DecidableEq, Repr

/-- The state of the package: `loader`, and a count of the `os.Open` and of the
`trace.Parse` calls made so far. -/
structure ViewerState where
  loader : Loader
  opens : Nat
  parses : Nat
  deriving DecidableEq, Repr

/-- The state before any call: the zero `loader`, nothing opened or parsed. -/
def ViewerState.init : ViewerState := ⟨⟨false, ⟨[], []⟩, none⟩, 0, 0⟩

/-- The function `parseTrace` hands to `loader.once.Do`. -/
def loadTrace (w : World) (s : ViewerState) : ViewerState :=
  match w.openFile with
  | .error e =>
    { loader := { s.loader with err := some ("failed to open trace file: " ++ e) },
      opens := s.opens + 1, parses := s.parses }
  | .ok content =>
    match w.parse content with
    | .error e =>
      { loader := { s.loader with err := some ("failed to parse trace: " ++ e) },
        opens := s.opens + 1, parses := s.parses + 1 }
    | .ok res =>
      { loader := { s.loader with res := res },
        opens := s.opens + 1, parses := s.parses + 1 }

/-- Source `parseTrace`: `loader.once.Do(...)`, then `return loader.res, loader.err`. -/
def parseTrace (w : World) (s : ViewerState) : ViewerState × (ParseResult × Option String) :=
  let s1 : ViewerState :=
    if s.loader.once then s
    else
      let s2 := loadTrace w s
      { s2 with loader := { s2.loader with once := true } }
  (s1, (s1.loader.res, s1.loader.err))

/-- Source `parseEvents`: `nil, err` on an error of `parseTrace`, else
`res.Events, err`. -/
def parseEvents (w : World) (s : ViewerState) : ViewerState × (List Nat × Option String) :=
  match parseTrace w s with
  | (s1, (_, some e)) => (s1, ([], some e))
  | (s1, (res, none)) => (s1, (res.Events, none))

/-- Go's `m[k] = v` on a map kept as a list of entries. -/
def mapAssign (m : List (String × String)) (k v : String) : List (String × String) :=
  if m.any (fun e => e.1 == k) then m.map (fun e => if e.1 == k then (k, v) else e)
  else m ++ [(k, v)]

/-- The assignments `handlers[route] = handler` of source `main`, in order, a
handler being named by the expression assigned. -/
def mainAssignments : List (String × String) :=
  [("/", "httpMain"),
   ("/mmus", "httpMMU"),
   ("/mmuPlot", "httpMMUPlot"),
   ("/mmuDetails", "httpMMUDetails"),
   ("/usertasks", "httpUserTasks"),
   ("/usertask", "httpUserTask"),
   ("/userregions", "httpUserRegions"),
   ("/userregion", "httpUserRegion"),
   ("/trace", "httpTrace"),
   ("/jsontrace", "httpJsonTrace"),
   ("/jsontrace", "httpJsonTrace"),
   ("/trace_viewer_html", "httpTraceViewerHTML"),
   ("/webcomponents.min.js", "webcomponentsJS"),
   ("/io", "serveSVGProfile(pprofByGoroutine(computePprofIO))"),
   ("/block", "serveSVGProfile(pprofByGoroutine(computePprofBlock))"),
   ("/syscall", "serveSVGProfile(pprofByGoroutine(computePprofSyscall))"),
   ("/sched", "serveSVGProfile(pprofByGoroutine(computePprofSched))"),
   ("/regionio", "serveSVGProfile(pprofByRegion(computePprofIO))"),
   ("/regionblock", "serveSVGProfile(pprofByRegion(computePprofBlock))"),
   ("/regionsyscall", "serveSVGProfile(pprofByRegion(computePprofSyscall))"),
   ("/regionsched", "serveSVGProfile(pprofByRegion(computePprofSched))"),
   ("/goroutines", "httpGoroutines"),
   ("/goroutine", "httpGoroutine")]

/-- The map `handlers` that source `main` builds. -/
def handlers : List (String × String) :=
  mainAssignments.foldl (fun m e => mapAssign m e.1 e.2) []

/-- The literal `href` attributes of the template `templMain`, in the order of
the text. The one remaining link, inside the `range`, has the computed target
`$e.URL` and is no literal of the template. -/
def templMainHrefs : List String :=
  ["/trace",
   "/goroutines",
   "/io", "/io?raw=1",
   "/block", "/block?raw=1",
   "/syscall", "/syscall?raw=1",
   "/sched", "/sche?raw=1",
   "/usertasks",
   "/userregions",
   "/mmu"]

/-- The path of a link: the part before any `?`. -/
def hrefPath (h : String) : String := String.mk (h.data.takeWhile (fun c => c != '?'))

/-- Whether the path of a link is a key of `handlers`. -/
def isServed (h : String) : Bool := handlers.any (fun e => e.1 == hrefPath h)

/-! ## Lemmas on bytes -/

theorem putUint64_eq_beBytes (v : Nat) : putUint64 v = beBytes 8 v := by
  simp [putUint64, beBytes]

theorem beBytes_length (w v : Nat) : (beBytes w v).length = w := by
  induction w with
  | zero => rfl
  | succ w ih => simp [beBytes, ih]

theorem beNat_cons_aux (b : Bytes) (acc : Nat) :
    b.foldl (fun acc x => acc * 256 + x.val) acc = acc * 256 ^ b.length + beNat b := by
  induction b generalizing acc with
  | nil => simp [beNat]
  | cons x xs ih =>
    simp only [List.foldl_cons, List.length_cons, beNat]
    rw [ih, ih (0 * 256 + x.val)]
    ring

theorem beNat_cons (x : Byte) (xs : Bytes) :
    beNat (x :: xs) = x.val * 256 ^ xs.length + beNat xs := by
  simp only [beNat, List.foldl_cons]
  rw [beNat_cons_aux]
  simp [beNat]

theorem digit_split (w v : Nat) :
    v % 256 ^ (w + 1) = (v / 256 ^ w % 256) * 256 ^ w + v % 256 ^ w := by
  have h := Nat.mod_mul_left_div_self v (256 ^ w) 256
  have h1 : v % 256 ^ (w + 1) = v % (256 ^ w * 256) := by rw [pow_succ]
  have h2 := Nat.mod_add_div (v % (256 ^ w * 256)) (256 ^ w)
  have h3 : v % (256 ^ w * 256) % 256 ^ w = v % 256 ^ w :=
    Nat.mod_mul_right_mod v (256 ^ w) 256
  rw [h1]
  rw [h3] at h2
  rw [Nat.mod_mul_right_div_self] at h2
  rw [← h2]
  ring

theorem beNat_beBytes (w v : Nat) : beNat (beBytes w v) = v % 256 ^ w := by
  induction w with
  | zero => simp [beBytes, beNat, Nat.mod_one]
  | succ w ih =>
    rw [beBytes, beNat_cons, beBytes_length, ih, digit_split]
    rfl

theorem bytesCompare_self (a : Bytes) : bytesCompare a a = .eq := by
  induction a with
  | nil => rfl
  | cons x xs ih => simp [bytesCompare, ih]

theorem bytesCompare_append_left (p a b : Bytes) :
    bytesCompare (p ++ a) (p ++ b) = bytesCompare a b := by
  induction p with
  | nil => rfl
  | cons x xs ih => simp [bytesCompare, ih]

theorem bytesCompare_eq_iff (a b : Bytes) : bytesCompare a b = .eq ↔ a = b := by
  induction a generalizing b with
  | nil => cases b <;> simp [bytesCompare]
  | cons x xs ih =>
    cases b with
    | nil => simp [bytesCompare]
    | cons y ys =>
      simp only [bytesCompare, List.cons.injEq]
      by_cases h1 : x < y
      · simp only [h1, if_true, reduceCtorEq, false_iff]
        exact fun h => (ne_of_lt h1) h.1
      · by_cases h2 : y < x
        · simp only [h1, h2, if_true, if_false, reduceCtorEq, false_iff]
          exact fun h => (ne_of_gt h2) h.1
        · simp only [h1, h2, if_false, ih]
          have : x = y := le_antisymm (not_lt.mp h2) (not_lt.mp h1)
          simp [this]

theorem bytesCompare_append_right (a b c d : Bytes) (h : a.length = b.length) :
    bytesCompare (a ++ c) (b ++ d)
      = if bytesCompare a b = .eq then bytesCompare c d else bytesCompare a b := by
  induction a generalizing b with
  | nil =>
    cases b with
    | nil => simp [bytesCompare]
    | cons y ys => simp at h
  | cons x xs ih =>
    cases b with
    | nil => simp at h
    | cons y ys =>
      simp only [List.length_cons, Nat.add_right_cancel_iff] at h
      simp only [List.cons_append, bytesCompare]
      by_cases h1 : x < y
      · simp [h1]
      · by_cases h2 : y < x
        · simp [h1, h2]
        · simp only [h1, h2, if_false]
          exact ih ys h

theorem digit_lt (X Y P ra rb : Nat) (h : X < Y) (hra : ra < P) :
    X * P + ra < Y * P + rb := by
  have h1 : (X + 1) * P ≤ Y * P := Nat.mul_le_mul_right _ h
  rw [Nat.add_mul] at h1
  omega

theorem bytesCompare_beBytes (w a b : Nat) :
    bytesCompare (beBytes w a) (beBytes w b) = compare (a % 256 ^ w) (b % 256 ^ w) := by
  induction w with
  | zero =>
    simp only [beBytes, bytesCompare, pow_zero, Nat.mod_one]
    exact (compare_eq_iff_eq.mpr rfl).symm
  | succ w ih =>
    have ha := digit_split w a
    have hb := digit_split w b
    have hpos : 0 < 256 ^ w := by positivity
    have hra : a % 256 ^ w < 256 ^ w := Nat.mod_lt _ hpos
    have hrb : b % 256 ^ w < 256 ^ w := Nat.mod_lt _ hpos
    simp only [beBytes, bytesCompare]
    by_cases h1 : byteOf (a / 256 ^ w) < byteOf (b / 256 ^ w)
    · have h1n : a / 256 ^ w % 256 < b / 256 ^ w % 256 := h1
      have : a % 256 ^ (w + 1) < b % 256 ^ (w + 1) := by
        rw [ha, hb]
        exact digit_lt _ _ _ _ _ h1n hra
      simp [h1, compare_lt_iff_lt.mpr this]
    · by_cases h2 : byteOf (b / 256 ^ w) < byteOf (a / 256 ^ w)
      · have h2n : b / 256 ^ w % 256 < a / 256 ^ w % 256 := h2
        have : b % 256 ^ (w + 1) < a % 256 ^ (w + 1) := by
          rw [ha, hb]
          exact digit_lt _ _ _ _ _ h2n hrb
        simp [h1, h2, compare_gt_iff_gt.mpr this]
      · have h1n : ¬ a / 256 ^ w % 256 < b / 256 ^ w % 256 := h1
        have h2n : ¬ b / 256 ^ w % 256 < a / 256 ^ w % 256 := h2
        have he : a / 256 ^ w % 256 = b / 256 ^ w % 256 := by omega
        simp only [h1, h2, if_false, ih]
        rw [ha, hb, he]
        rcases Nat.lt_trichotomy (a % 256 ^ w) (b % 256 ^ w) with h | h | h
        · rw [compare_lt_iff_lt.mpr h, compare_lt_iff_lt.mpr (by omega)]
        · rw [h, compare_eq_iff_eq.mpr rfl, compare_eq_iff_eq.mpr rfl]
        · rw [compare_gt_iff_gt.mpr h, compare_gt_iff_gt.mpr (by omega)]


/-! ## Theorems -/

theorem uint64_putUint64 (v : Nat) (h : v < 2 ^ 64) : beNat (putUint64 v) = v := by
  rw [putUint64_eq_beBytes, beNat_beBytes]
  exact Nat.mod_eq_of_lt (by norm_num at h ⊢; exact h)

theorem putUint64_length (v : Nat) : (putUint64 v).length = 8 := by
  simp [putUint64]

theorem uint64OfInt_intOfUint64 (num : Nat) (h : num < 2 ^ 64) :
    uint64OfInt (intOfUint64 num) = num := by
  unfold uint64OfInt intOfUint64 intSize
  have hm : num % 2 ^ 64 = num := Nat.mod_eq_of_lt h
  rw [hm]
  split <;> omega

theorem int64_roundtrip (v : Int) (h : isInt64 v) : int64OfUint64 (uint64OfInt v) = v := by
  unfold isInt64 at h
  unfold int64OfUint64 uint64OfInt
  have h0 : (0 : Int) ≤ v % 2 ^ 64 := Int.emod_nonneg _ (by norm_num)
  have h1 : v % 2 ^ 64 < 2 ^ 64 := Int.emod_lt_of_pos _ (by norm_num)
  have hm : (v % 2 ^ 64).toNat % 2 ^ 64 = (v % 2 ^ 64).toNat := Nat.mod_eq_of_lt (by omega)
  rw [hm]
  split <;> omega

theorem uint64OfInt_lt (v : Int) : uint64OfInt v < 2 ^ 64 := by
  unfold uint64OfInt
  have h0 : (0 : Int) ≤ v % 2 ^ 64 := Int.emod_nonneg _ (by norm_num)
  have h1 : v % 2 ^ 64 < 2 ^ 64 := Int.emod_lt_of_pos _ (by norm_num)
  omega

theorem bytesCompare_putUint64 (a b : Nat) (ha : a < 2 ^ 64) (hb : b < 2 ^ 64) :
    bytesCompare (putUint64 a) (putUint64 b) = compare a b := by
  rw [putUint64_eq_beBytes, putUint64_eq_beBytes, bytesCompare_beBytes]
  rw [Nat.mod_eq_of_lt (by norm_num at ha ⊢; exact ha),
    Nat.mod_eq_of_lt (by norm_num at hb ⊢; exact hb)]

theorem insertKey_eq (p : Bytes) (t num : Nat) (h : num < 2 ^ 64) :
    insertKey p t num = p ++ (putUint64 t ++ putUint64 num) := by
  simp [insertKey, itob, BuildKey, uint64OfInt_intOfUint64 num h]

theorem bytesCompare_insertKey (p : Bytes) (t1 t2 s1 s2 : Nat)
    (ht1 : t1 < 2 ^ 64) (ht2 : t2 < 2 ^ 64) (hs1 : s1 < 2 ^ 64) (hs2 : s2 < 2 ^ 64) :
    bytesCompare (insertKey p t1 s1) (insertKey p t2 s2)
      = if compare t1 t2 = .eq then compare s1 s2 else compare t1 t2 := by
  rw [insertKey_eq p t1 s1 hs1, insertKey_eq p t2 s2 hs2, bytesCompare_append_left,
    bytesCompare_append_right _ _ _ _ (by simp [putUint64_length]),
    bytesCompare_putUint64 t1 t2 ht1 ht2, bytesCompare_putUint64 s1 s2 hs1 hs2]

theorem insertKey_lt_iff (p : Bytes) (t1 t2 s1 s2 : Nat)
    (ht1 : t1 < 2 ^ 64) (ht2 : t2 < 2 ^ 64) (hs1 : s1 < 2 ^ 64) (hs2 : s2 < 2 ^ 64) :
    bytesCompare (insertKey p t1 s1) (insertKey p t2 s2) = .lt
      ↔ (t1 < t2 ∨ (t1 = t2 ∧ s1 < s2)) := by
  rw [bytesCompare_insertKey p t1 t2 s1 s2 ht1 ht2 hs1 hs2]
  rcases Nat.lt_trichotomy t1 t2 with h | h | h
  · simp [compare_lt_iff_lt.mpr h, h]
  · subst h
    simp [compare_eq_iff_eq.mpr rfl, compare_lt_iff_lt]
  · simp [compare_gt_iff_gt.mpr h]
    omega

/-- C2. Keys that `insert` builds under one prefix compare, byte by byte, as
the pairs (time, sequence number) compare: the key for `(p, t1, s1)` is
smaller than the key for `(p, t2, s2)` exactly when `t1 < t2`, or `t1 = t2`
and `s1 < s2`. In particular `BuildKey` is strictly monotone in time, and two
keys with the same prefix and time but different sequence numbers differ. -/
theorem key_order_is_time_then_sequence (p : Bytes) (t1 t2 s1 s2 : Nat)
    (ht1 : t1 < 2 ^ 64) (ht2 : t2 < 2 ^ 64) (hs1 : s1 < 2 ^ 64) (hs2 : s2 < 2 ^ 64) :
    (bytesCompare (insertKey p t1 s1) (insertKey p t2 s2) = .lt
        ↔ (t1 < t2 ∨ (t1 = t2 ∧ s1 < s2)))
    ∧ (bytesCompare (BuildKey t1) (BuildKey t2) = .lt ↔ t1 < t2)
    ∧ (s1 ≠ s2 → insertKey p t1 s1 ≠ insertKey p t1 s2) := by
  refine ⟨insertKey_lt_iff p t1 t2 s1 s2 ht1 ht2 hs1 hs2, ?_, ?_⟩
  · unfold BuildKey
    rw [bytesCompare_putUint64 t1 t2 ht1 ht2, compare_lt_iff_lt]
  · intro hne heq
    have h := bytesCompare_insertKey p t1 t1 s1 s2 ht1 ht1 hs1 hs2
    rw [heq, bytesCompare_self] at h
    simp only [compare_eq_iff_eq.mpr rfl, if_true] at h
    exact hne (compare_eq_iff_eq.mp h.symm)

/-- C2 at a concrete input: equal times, sequence numbers on both sides of
`2 ^ 63`. -/
theorem key_order_is_time_then_sequence_witness :
    (bytesCompare (insertKey [65] 1700000000000000000 5)
        (insertKey [65] 1700000000000000000 (2 ^ 63 + 1)) = .lt
        ↔ ((1700000000000000000 : Nat) < 1700000000000000000
            ∨ ((1700000000000000000 : Nat) = 1700000000000000000 ∧ 5 < 2 ^ 63 + 1)))
    ∧ (bytesCompare (BuildKey 1700000000000000000) (BuildKey 1700000000000000000) = .lt
        ↔ (1700000000000000000 : Nat) < 1700000000000000000)
    ∧ ((5 : Nat) ≠ 2 ^ 63 + 1 → insertKey [65] 1700000000000000000 5
        ≠ insertKey [65] 1700000000000000000 (2 ^ 63 + 1)) :=
  key_order_is_time_then_sequence [65] 1700000000000000000 1700000000000000000 5 (2 ^ 63 + 1)
    (by norm_num) (by norm_num) (by norm_num) (by norm_num)


/-- C3. The key `insert` writes for prefix `p`, time `t` and sequence number
`num` (any unsigned 64-bit value) is `p`, then the eight bytes `BuildKey t`,
then the eight bytes of `num` big-endian: it has length `len(p) + 16`, its last
eight bytes read big-endian give back `num`, and the conversion
`uint64 -> int -> uint64` made by `itob(int(num))` loses nothing, also when
`num` is `2 ^ 63` or more and `int(num)` is negative. -/
theorem insert_key_layout (p : Bytes) (t num : Nat) (h : num < 2 ^ 64) :
    insertKey p t num = p ++ BuildKey t ++ putUint64 num
    ∧ (insertKey p t num).length = p.length + 16
    ∧ (insertKey p t num).take p.length = p
    ∧ ((insertKey p t num).drop p.length).take 8 = BuildKey t
    ∧ ((insertKey p t num).drop (p.length + 8)).length = 8
    ∧ getUint64 ((insertKey p t num).drop (p.length + 8)) = some num
    ∧ uint64OfInt (intOfUint64 num) = num
    ∧ (2 ^ 63 ≤ num → intOfUint64 num < 0) := by
  have hk : insertKey p t num = p ++ (putUint64 t ++ putUint64 num) := insertKey_eq p t num h
  have hd : (p ++ (putUint64 t ++ putUint64 num)).drop (p.length + 8) = putUint64 num := by
    rw [← List.drop_drop, List.drop_left, ← putUint64_length t, List.drop_left]
  refine ⟨?_, ?_, ?_, ?_, ?_, ?_, uint64OfInt_intOfUint64 num h, ?_⟩
  · rw [hk]; simp [BuildKey]
  · rw [hk]; simp [putUint64_length]
  · rw [hk]; simp
  · rw [hk, List.drop_left, ← putUint64_length t, List.take_left]; rfl
  · rw [hk, hd, putUint64_length]
  · rw [hk, hd]
    unfold getUint64
    rw [if_pos (by rw [putUint64_length])]
    have : (putUint64 num).take 8 = putUint64 num := by
      rw [← putUint64_length num, List.take_length]
    rw [this, uint64_putUint64 num h]
  · intro h63
    unfold intOfUint64 intSize
    rw [Nat.mod_eq_of_lt h]
    split <;> omega

/-- C3 at the largest sequence number, `2 ^ 64 - 1`, which `int` reads as `-1`. -/
theorem insert_key_layout_witness :
    insertKey [65] 1700000000000000000 (2 ^ 64 - 1)
        = [65] ++ BuildKey 1700000000000000000 ++ putUint64 (2 ^ 64 - 1)
    ∧ (insertKey [65] 1700000000000000000 (2 ^ 64 - 1)).length = [(65 : Byte)].length + 16
    ∧ (insertKey [65] 1700000000000000000 (2 ^ 64 - 1)).take [(65 : Byte)].length = [65]
    ∧ ((insertKey [65] 1700000000000000000 (2 ^ 64 - 1)).drop [(65 : Byte)].length).take 8
        = BuildKey 1700000000000000000
    ∧ ((insertKey [65] 1700000000000000000 (2 ^ 64 - 1)).drop
        ([(65 : Byte)].length + 8)).length = 8
    ∧ getUint64 ((insertKey [65] 1700000000000000000 (2 ^ 64 - 1)).drop
        ([(65 : Byte)].length + 8)) = some (2 ^ 64 - 1)
    ∧ uint64OfInt (intOfUint64 (2 ^ 64 - 1)) = 2 ^ 64 - 1
    ∧ (2 ^ 63 ≤ 2 ^ 64 - 1 → intOfUint64 (2 ^ 64 - 1) < 0) :=
  insert_key_layout [65] 1700000000000000000 (2 ^ 64 - 1) (by norm_num)

theorem readUint64_append (v : Nat) (rest : Bytes) (h : v < 2 ^ 64) :
    readUint64 (putUint64 v ++ rest) = .ok (v, rest) := by
  unfold readUint64 getUint64
  have hl : 8 ≤ (putUint64 v ++ rest).length := by simp [putUint64_length]
  have ht : (putUint64 v ++ rest).take 8 = putUint64 v := by
    rw [← putUint64_length v, List.take_left]
  have hd : (putUint64 v ++ rest).drop 8 = rest := by
    rw [← putUint64_length v, List.drop_left]
  rw [if_pos hl, ht, hd, uint64_putUint64 v h]

theorem readString_append (s rest : Bytes) (h : s.length < 2 ^ 64) :
    readString (putString s ++ rest) = .ok (s, rest) := by
  unfold readString putString
  rw [List.append_assoc, readUint64_append _ _ h]
  simp

theorem decode_encode (r : ProfileMeta) (h : r.wellTyped) :
    ∃ b, r.Encode = .ok b ∧ ProfileMeta.Decode b = .ok r := by
  obtain ⟨hid, hts, hdu, hu, ht⟩ := h
  refine ⟨_, rfl, ?_⟩
  unfold ProfileMeta.Decode
  simp only [List.append_assoc]
  rw [readUint64_append _ _ hid]
  simp only []
  rw [readUint64_append _ _ (uint64OfInt_lt _)]
  simp only []
  rw [readUint64_append _ _ (uint64OfInt_lt _)]
  simp only []
  rw [readString_append _ _ (by omega)]
  simp only []
  have := readString_append r.SampleType [] (by omega)
  rw [List.append_nil] at this
  rw [this]
  simp only [if_true, int64_roundtrip _ hts, int64_roundtrip _ hdu]

/-- C1. For every `ProfileMeta` record `r` whose fields hold values of their
types (any identifier, any 64-bit `Timestamp` and `Duration`, zero, negative
and extreme values included, any two strings), `r.Encode()` succeeds and
`Decode` of the bytes it produced succeeds and yields a record equal to `r`
in all five fields. -/
theorem decode_encode_roundtrip (r : ProfileMeta) (h : r.wellTyped) :
    ∃ b r1, r.Encode = .ok b ∧ ProfileMeta.Decode b = .ok r1
      ∧ r1.ProfileID = r.ProfileID ∧ r1.Timestamp = r.Timestamp
      ∧ r1.Duration = r.Duration ∧ r1.SampleTypeUnit = r.SampleTypeUnit
      ∧ r1.SampleType = r.SampleType := by
  obtain ⟨b, hb, hd⟩ := decode_encode r h
  exact ⟨b, r, hb, hd, rfl, rfl, rfl, rfl, rfl⟩

/-- C1 at the extreme values: the least `int64` as `Timestamp`, the greatest
as `Duration`, the greatest `uint64` as `ProfileID`, an empty string. -/
theorem decode_encode_roundtrip_witness :
    ProfileMeta.wellTyped ⟨2 ^ 64 - 1, -2 ^ 63, 2 ^ 63 - 1, [99, 111], []⟩
    ∧ ∃ b r1, ProfileMeta.Encode ⟨2 ^ 64 - 1, -2 ^ 63, 2 ^ 63 - 1, [99, 111], []⟩ = .ok b
      ∧ ProfileMeta.Decode b = .ok r1
      ∧ r1.ProfileID = 2 ^ 64 - 1 ∧ r1.Timestamp = -2 ^ 63
      ∧ r1.Duration = 2 ^ 63 - 1 ∧ r1.SampleTypeUnit = [99, 111]
      ∧ r1.SampleType = [] :=
  ⟨by decide,
   decode_encode_roundtrip ⟨2 ^ 64 - 1, -2 ^ 63, 2 ^ 63 - 1, [99, 111], []⟩ (by decide)⟩


/-! ### The scan -/

theorem readLoop_acc (cmp : Bytes → Bytes → Bool) (max : Bytes)
    (fn : Bytes → Except Error ProfileMeta) (items : List Item) (acc : List ProfileMeta) :
    readLoop cmp max fn items acc
      = ⟨acc ++ (readLoop cmp max fn items []).metas, (readLoop cmp max fn items []).exit⟩ := by
  induction items generalizing acc with
  | nil => simp [readLoop]
  | cons it rest ih =>
    unfold readLoop
    by_cases hc : cmp it.key max = true
    · simp only [hc, Bool.not_true, Bool.false_eq_true, if_false]
      cases it.value with
      | error e => simp
      | ok v =>
        simp only []
        cases fn v with
        | error e => simp
        | ok m =>
          simp only []
          rw [ih (acc ++ [m]), ih ([] ++ [m])]
          simp
    · simp only [Bool.not_eq_true] at hc
      simp [hc]

theorem readLoop_total (cmp : Bytes → Bytes → Bool) (max : Bytes) (g : Bytes → ProfileMeta)
    (kvs : List (Bytes × Bytes)) (acc : List ProfileMeta) :
    readLoop cmp max (totalDecoder g) (itemsOf kvs) acc
      = ⟨acc ++ (kvs.takeWhile (fun kv => cmp kv.1 max)).map (fun kv => g kv.2), .done⟩ := by
  induction kvs generalizing acc with
  | nil => simp [readLoop, itemsOf]
  | cons kv rest ih =>
    simp only [itemsOf, List.map_cons] at ih ⊢
    unfold readLoop
    by_cases hc : cmp kv.1 max = true
    · simp only [hc, Bool.not_true, Bool.false_eq_true, if_false, totalDecoder,
        List.takeWhile_cons_of_pos, List.map_cons]
      have := ih (acc ++ [g kv.2])
      simp only [totalDecoder] at this
      rw [this]
      simp
    · simp only [Bool.not_eq_true] at hc
      simp [hc]

/-- C8. For every list of (key, value) pairs the iterator yields from
`Rewind`, all value reads succeeding, every bound `max`, every comparison
`CompareKey` and every decoder `fn` that never panics, `read` collects exactly
`fn` of the values of the longest leading run of pairs whose key satisfies
`CompareKey(k, max)`, in iteration order, and returns: so it stops at the first
key that fails the comparison and returns no record for that key or for any
later one, whatever the comparison says of the later ones. -/
theorem read_collects_leading_run (CompareKey : Bytes → Bytes → Bool) (max : Bytes)
    (g : Bytes → ProfileMeta) (kvs : List (Bytes × Bytes)) :
    read CompareKey max (totalDecoder g) (itemsOf kvs)
        = ⟨(kvs.takeWhile (fun kv => CompareKey kv.1 max)).map (fun kv => g kv.2), .done⟩
    ∧ ∀ (pre post : List (Bytes × Bytes)) (k v : Bytes),
        kvs = pre ++ (k, v) :: post → (∀ kv ∈ pre, CompareKey kv.1 max = true) →
        CompareKey k max = false →
        (read CompareKey max (totalDecoder g) (itemsOf kvs)).metas
          = pre.map (fun kv => g kv.2) := by
  have h := readLoop_total CompareKey max g kvs []
  refine ⟨by simpa [read] using h, ?_⟩
  intro pre post k v hk hpre hfail
  unfold read
  rw [h, hk]
  have h1 : (pre ++ (k, v) :: post).takeWhile (fun kv => CompareKey kv.1 max) = pre := by
    rw [List.takeWhile_append_of_pos (by simpa using hpre)]
    simp [List.takeWhile_cons, hfail]
  simp [h1]


/-- C5, at a value that fails to decode. With `decodeGob` the scan does not
stop and reports nothing: the record the failed decoder left behind is
appended and the scan goes on with the rest. With `decodeMsgPack` at the same
place the scan stops with the panic and appends nothing. -/
theorem decodeGob_swallows_decode_error (gobDecode : LibDecoder)
    (CompareKey : Bytes → Bytes → Bool) (max k v : Bytes) (rest : List Item) (e : Error)
    (hcmp : CompareKey k max = true) (hfail : (gobDecode v zeroMeta).2 = some e) :
    read CompareKey max (decodeGob gobDecode) (⟨k, .ok v⟩ :: rest)
        = ⟨(gobDecode v zeroMeta).1 :: (read CompareKey max (decodeGob gobDecode) rest).metas,
           (read CompareKey max (decodeGob gobDecode) rest).exit⟩
    ∧ read CompareKey max (decodeMsgPack gobDecode) (⟨k, .ok v⟩ :: rest) = ⟨[], .panicked e⟩ := by
  constructor
  · unfold read
    rw [readLoop]
    simp only [hcmp, Bool.not_true, Bool.false_eq_true, if_false, decodeGob, List.nil_append]
    rw [readLoop_acc]
    simp
  · unfold read
    rw [readLoop]
    simp only [hcmp, Bool.not_true, Bool.false_eq_true, if_false, decodeMsgPack]
    cases hg : gobDecode v zeroMeta with
    | mk sample err =>
      rw [hg] at hfail
      simp only at hfail
      subst hfail
      rfl

/-- C5 at a store with the one key `"A"` and an empty value, which the decoder
rejects: `read` with `decodeGob` returns the zero `ProfileMeta` and ends
normally. -/
theorem decodeGob_swallows_decode_error_witness :
    lexLe [65] [66] = true ∧ (toyDecoder [] zeroMeta).2 = some Error.DecodeError
    ∧ read lexLe [66] (decodeGob toyDecoder) [⟨[65], .ok []⟩] = ⟨[zeroMeta], .done⟩
    ∧ read lexLe [66] (decodeMsgPack toyDecoder) [⟨[65], .ok []⟩]
        = ⟨[], .panicked Error.DecodeError⟩ :=
  ⟨by decide, by decide,
   (decodeGob_swallows_decode_error toyDecoder lexLe [66] [65] [] [] Error.DecodeError
      (by decide) (by decide)).1,
   (decodeGob_swallows_decode_error toyDecoder lexLe [66] [65] [] [] Error.DecodeError
      (by decide) (by decide)).2⟩

/-! ### The sequence lease -/

theorem kv_setMark (db : DB) (key : Bytes) (v : Nat) : (db.setMark key v).kv = db.kv := rfl

theorem next_kv (fault : Option Error) (db db2 : DB) (seq seq2 : Sequence) (num : Nat)
    (h : seq.Next fault db = .ok (db2, seq2, num)) : db2.kv = db.kv := by
  unfold Sequence.Next at h
  split at h
  · simp only [Except.ok.injEq, Prod.mk.injEq] at h
    rw [← h.1]
  · unfold updateLease at h
    cases fault with
    | some e => exact absurd h (by simp)
    | none =>
      simp only [Except.ok.injEq, Prod.mk.injEq] at h
      rw [← h.1]
      rfl

theorem parseTrace_once (w : World) (s : ViewerState) (h : s.loader.once = true) :
    parseTrace w s = (s, (s.loader.res, s.loader.err)) := by
  simp [parseTrace, h]

theorem parseTrace_sets_once (w : World) (s : ViewerState) :
    (parseTrace w s).1.loader.once = true := by
  unfold parseTrace
  by_cases h : s.loader.once = true
  · simp [h]
  · simp [h]

theorem parseTrace_later (s : ViewerState) (h : s.loader.once = true) (later : List World) :
    later.foldl (fun s w => (parseTrace w s).1) s = s := by
  induction later with
  | nil => rfl
  | cons w ws ih => simp only [List.foldl_cons, parseTrace_once w s h, ih]

/-- C9. `parseTrace` is memoised. Whatever the first call finds (the file does
not open, the content does not parse, or it parses), every later call, after
any number of calls in between and whatever the file holds by then, leaves the
state as the first call left it (so it opens and parses nothing) and returns
the pair (result, error) the first call returned; `parseEvents` then returns
nil events with that error when there is one, and the `Events` of the cached
result with a nil error otherwise. The first call opens the file once, and its
outcome is the wrapped open error, the wrapped parse error, or the parsed
result with a nil error. -/
theorem parseTrace_memoised (w1 : World) (later : List World) (w : World) :
    later.foldl (fun s w => (parseTrace w s).1) (parseTrace w1 ViewerState.init).1
        = (parseTrace w1 ViewerState.init).1
    ∧ parseTrace w (later.foldl (fun s w => (parseTrace w s).1) (parseTrace w1 ViewerState.init).1)
        = ((parseTrace w1 ViewerState.init).1, (parseTrace w1 ViewerState.init).2)
    ∧ parseEvents w (later.foldl (fun s w => (parseTrace w s).1) (parseTrace w1 ViewerState.init).1)
        = ((parseTrace w1 ViewerState.init).1,
            match (parseTrace w1 ViewerState.init).2.2 with
            | some e => ([], some e)
            | none => ((parseTrace w1 ViewerState.init).2.1.Events, none))
    ∧ (parseTrace w1 ViewerState.init).1.opens = 1
    ∧ (∀ e, w1.openFile = .error e →
        (parseTrace w1 ViewerState.init).2
          = (⟨[], []⟩, some ("failed to open trace file: " ++ e)))
    ∧ (∀ c e, w1.openFile = .ok c → w1.parse c = .error e →
        (parseTrace w1 ViewerState.init).2 = (⟨[], []⟩, some ("failed to parse trace: " ++ e)))
    ∧ (∀ c res, w1.openFile = .ok c → w1.parse c = .ok res →
        (parseTrace w1 ViewerState.init).2 = (res, none)) := by
  have honce := parseTrace_sets_once w1 ViewerState.init
  have hl := parseTrace_later _ honce later
  have hp := parseTrace_once w _ honce
  refine ⟨hl, ?_, ?_, ?_, ?_, ?_, ?_⟩
  · rw [hl, hp]; rfl
  · rw [hl]
    unfold parseEvents
    rw [hp]
    cases h : (parseTrace w1 ViewerState.init).2.2 with
    | some e =>
      have h2 : (parseTrace w1 ViewerState.init).1.loader.err = some e := h
      simp [h2]
    | none =>
      have h2 : (parseTrace w1 ViewerState.init).1.loader.err = none := h
      simp only [h2]
      rfl
  · simp only [parseTrace, ViewerState.init, loadTrace]
    cases w1.openFile with
    | error e => simp
    | ok c =>
      cases hpc : w1.parse c with
      | error e => simp [hpc]
      | ok res => simp [hpc]
  · intro e he
    simp [parseTrace, ViewerState.init, loadTrace, he]
  · intro c e hc he
    simp [parseTrace, ViewerState.init, loadTrace, hc, he]
  · intro c res hc hr
    simp [parseTrace, ViewerState.init, loadTrace, hc, hr]

/-- C10, evaluated on the code. Of the literal links of `templMain`, two have a
path that is no key of the map `handlers` that `main` builds: `/sche?raw=1`
(path `/sche`, the route is `/sched`) and `/mmu` (the route is `/mmus`); every
other one is served. -/
theorem templMain_links_unserved :
    templMainHrefs.filter (fun h => !isServed h) = ["/sche?raw=1", "/mmu"]
    ∧ hrefPath "/sche?raw=1" = "/sche"
    ∧ isServed "/sche?raw=1" = false ∧ isServed "/mmu" = false
    ∧ isServed "/sched" = true ∧ isServed "/mmus" = true
    ∧ ¬ ∀ h ∈ templMainHrefs, isServed h = true := by
  decide

end Profiler
